import Mathlib

/-!
Verification development for the msp432_razcal GPIO / pin-allocation layer.

The definitions below are shallow embeddings of the Rust source:
machine `u16` words are modelled as `Nat` with an explicit 16-bit
complement (`not16`), the global `PORT_PINS_AVAILABLE : [AtomicU16; 6]`
table is a `List Nat`, and atomic read-modify-write instructions
(`fetch_nand`, `fetch_and`, `fetch_or`) are pure state transformers that
return the previous value together with the updated table.
-/

/-- Bitwise complement within a 16-bit word: `!x` on a `u16` value. -/
def not16 (x : Nat) : Nat := (2 ^ 16 - 1) ^^^ x

/-- Encoding of `const fn pin_name(port: u8, pin: u8)` from `src/pin.rs`:
`(port as isize) << 8 | (pin as isize)`. -/
def pin_name (port pin : Nat) : Nat := (port <<< 8) ||| pin

/-- Embedding of `extract_port_number` from `src/pin.rs`: `(name >> 8) as u8`. -/
def extract_port_number (name : Nat) : Nat := (name >>> 8) % 256

/-- Embedding of `extract_pin_number` from `src/pin.rs`: `(name & 0xFF) as u8`. -/
def extract_pin_number (name : Nat) : Nat := name &&& 0xFF

/-- The `PinName::PJ_0` discriminant from `src/pin.rs` (port 5, offset 0). -/
def PinName.PJ_0 : Nat := pin_name 5 0

/-- Initial `PORT_PINS_AVAILABLE` table for the `vqfn` package
(`src/pin.rs`, the `msp432_package = "vqfn"` block). -/
def PORT_PINS_AVAILABLE_vqfn : List Nat :=
  [0x0FFF, 0xFCFF, 0xC0FF, 0x03FF, 0x0000, 0x003F]

/-- Embedding of `Pin::new` from `src/pin.rs` (lines 262-274).  The source
performs `PORT_PINS_AVAILABLE[port].fetch_nand(pin_mask)` — a single atomic
operation whose new value is `!(old & pin_mask)` — and returns `None` when
the previous value had the pin bit clear.  The returned pair is
`(allocated pin name if successful, updated table)`; note the table is
updated by the fetch even on the failure path, exactly as in the source. -/
def Pin.new (pin : Nat) (avail : List Nat) : Option Nat × List Nat :=
  let port := extract_port_number pin
  let pin_mask := 1 <<< extract_pin_number pin
  let value := avail.getD port 0
  let updated := avail.set port (not16 (value &&& pin_mask))
  if value &&& pin_mask == 0 then (none, updated) else (some pin, updated)

/-- Embedding of `impl Drop for Pin` from `src/pin.rs` (lines 289-297):
`PORT_PINS_AVAILABLE[port].fetch_or(pin_mask)`. -/
def Pin.drop (pin : Nat) (avail : List Nat) : List Nat :=
  let port := extract_port_number pin
  let pin_mask := 1 <<< extract_pin_number pin
  avail.set port ((avail.getD port 0) ||| pin_mask)

/-! ## Pin/Port identity (`src/pin/names.rs`) -/

/-- Embedding of `enum PortSize` from `src/pin/names.rs`. -/
inductive PortSize where
  | port8Bit
  | port16Bit
deriving DecidableEq, Repr

/-- Embedding of `enum Half` from `src/lib.rs` (`Lower = 0`, `Upper = 1`). -/
inductive Half where
  | lower
  | upper
deriving DecidableEq, Repr

namespace Names

/-- Embedding of `struct PortName` from `src/pin/names.rs`: a port number
together with its granularity. -/
structure PortName where
  number : Nat
  size : PortSize
deriving DecidableEq, Repr

/-- Embedding of `PortName::is_upper_half_port` from `src/pin/names.rs`:
`self.number & 1 != 0` for an 8-bit port; the 16-bit arm is a
`debug_assert!(false)` followed by `false`. -/
def PortName.is_upper_half_port (p : PortName) : Bool :=
  match p.size with
  | .port8Bit => p.number &&& 1 != 0
  | .port16Bit => false

/-- Embedding of `PortName::get_16_bit_port_index` from `src/pin/names.rs`. -/
def PortName.get_16_bit_port_index (p : PortName) : Nat :=
  match p.size with
  | .port8Bit => p.number / 2
  | .port16Bit => p.number

/-- Embedding of `PortName::get_8_bit_port_index` from `src/pin/names.rs`. -/
def PortName.get_8_bit_port_index (p : PortName) (half : Half) : Nat :=
  match p.size with
  | .port16Bit =>
    match half with
    | .lower => p.number * 2
    | .upper => p.number * 2 + 1
  | .port8Bit => p.number

/-- Embedding of `PortName::get_port_size` from `src/pin/names.rs`. -/
def PortName.get_port_size (p : PortName) : PortSize := p.size

/-- Embedding of `struct PinName` from `src/pin/names.rs`: an owning port
name together with the pin's offset inside that port. -/
structure PinName where
  port_name : PortName
  pin_offset : Nat
deriving DecidableEq, Repr

/-- Embedding of `PinName::to_8_bit` from `src/pin/names.rs` (lines
969-994): an 8-bit pin name is returned unchanged; a 16-bit pin name with
offset below 8 maps to its lower-half 8-bit port with the same offset,
and one with offset 8 or above maps to its upper-half 8-bit port with the
offset reduced by 8. -/
def PinName.to_8_bit (p : PinName) : PinName :=
  match p.port_name.size with
  | .port8Bit => p
  | .port16Bit =>
    if p.pin_offset < 8 then
      { port_name := { number := p.port_name.get_8_bit_port_index .lower,
                       size := .port8Bit },
        pin_offset := p.pin_offset }
    else
      { port_name := { number := p.port_name.get_8_bit_port_index .upper,
                       size := .port8Bit },
        pin_offset := p.pin_offset - 8 }

/-- Embedding of `PinName::to_16_bit` from `src/pin/names.rs` (lines
1000-1019): a 16-bit pin name is returned unchanged; an 8-bit pin name
maps to its containing 16-bit port, with the offset increased by 8 when
the 8-bit port is an upper half. -/
def PinName.to_16_bit (p : PinName) : PinName :=
  match p.port_name.size with
  | .port16Bit => p
  | .port8Bit =>
    { port_name := { number := p.port_name.get_16_bit_port_index,
                     size := .port16Bit },
      pin_offset :=
        if p.port_name.is_upper_half_port then p.pin_offset + 8 else p.pin_offset }

/-- Decides whether a `PinName` is one of the pin-name constants declared
in `src/pin/names.rs`: 16-bit ports PORTA-PORTE (numbers 0-4, offsets
0-15) and PORTJ (number 5, offsets 0-5); 8-bit ports PORT1-PORT10
(numbers 0-9, offsets 0-7) and PORTJ_8BIT (number 10, offsets 0-5). -/
def isValidPinName (p : PinName) : Bool :=
  match p.port_name.size with
  | .port16Bit =>
    (p.port_name.number < 5 && p.pin_offset < 16) ||
      (p.port_name.number == 5 && p.pin_offset < 6)
  | .port8Bit =>
    (p.port_name.number < 10 && p.pin_offset < 8) ||
      (p.port_name.number == 10 && p.pin_offset < 6)

end Names

/-! ## Port allocation (`src/pin/port.rs`) -/

/-- Constant `ALL_PINS_IN_PORT` from `src/pin/port.rs`. -/
def ALL_PINS_IN_PORT : Nat := (1 <<< 16) - 1

/-- Constant `LOWER_PINS_IN_PORT` from `src/pin/port.rs`. -/
def LOWER_PINS_IN_PORT : Nat := (1 <<< 8) - 1

/-- Constant `UPPER_PINS_IN_PORT` from `src/pin/port.rs`. -/
def UPPER_PINS_IN_PORT : Nat := ALL_PINS_IN_PORT - LOWER_PINS_IN_PORT

/-- The `required_pins` mask computed inside `Port::new` (and again inside
`Drop for Port`) in `src/pin/port.rs`. -/
def Port.required_pins (port : Names.PortName) : Nat :=
  match port.get_port_size with
  | .port8Bit =>
    if port.is_upper_half_port then UPPER_PINS_IN_PORT else LOWER_PINS_IN_PORT
  | .port16Bit => ALL_PINS_IN_PORT

/-- Embedding of `Port::new` from `src/pin/port.rs` (lines 45-76).  The
source performs `fetch_and(!required_pins)` on the port's availability
word; if the previous value contained every required bit it returns the
port, otherwise it restores the bits that were actually cleared with
`fetch_or(value & required_pins)` and returns `None`. -/
def Port.new (port : Names.PortName) (avail : List Nat) : Option Names.PortName × List Nat :=
  let port_index := port.get_16_bit_port_index
  let required_pins := Port.required_pins port
  let value := avail.getD port_index 0
  let cleared := avail.set port_index (value &&& not16 required_pins)
  if value &&& required_pins == required_pins then
    (some port, cleared)
  else
    (none,
      cleared.set port_index ((cleared.getD port_index 0) ||| (value &&& required_pins)))

/-! ## Pin set allocation (`src/pin/pinset.rs`)

`PinSet::new` calls `Pin::new(PinName) -> Option<Pin>` on the `Pin` type
of its sibling module `super::pin` and relies on `Drop for Pin` for
rollback; the `Pin` in `src/pin/pin.rs` is a const-generic marker type
with an infallible constructor, so the allocator `PinSet` builds on is
not present under `src/`. -/

/-- Modelled from the spec: `Pin::new(name) -> Option<Pin>` as used by
`src/pin/pinset.rs` — the fallible single-pin constructor of §4.3, which
is missing from `src/pin/pin.rs`.  It "atomically attempts to clear the
pin's bit" of the port's availability word with a single fetch-and-clear
and "returns none if the bit was already clear". -/
def specPinNew (pin : Nat) (avail : List Nat) : Option Nat × List Nat :=
  let port := extract_port_number pin
  let pin_mask := 1 <<< extract_pin_number pin
  let value := avail.getD port 0
  let updated := avail.set port (value &&& not16 pin_mask)
  if value &&& pin_mask == 0 then (none, updated) else (some pin, updated)

/-- Modelled from the spec: `Drop for Pin` as relied upon by
`src/pin/pinset.rs` — "unconditionally restores the owned bit(s) via
fetch-or" (§4.3). -/
def specPinDrop (pin : Nat) (avail : List Nat) : List Nat :=
  let port := extract_port_number pin
  let pin_mask := 1 <<< extract_pin_number pin
  avail.set port ((avail.getD port 0) ||| pin_mask)

/-- Releases a list of acquired pins in order, mirroring the rollback loop
of `PinSet::new` (`src/pin/pinset.rs` lines 41-45), which drops
`pin_set_uninit[0..pins_allocated]` in allocation order. -/
def releaseList (pins : List Nat) (avail : List Nat) : List Nat :=
  match pins with
  | [] => avail
  | p :: rest => releaseList rest (specPinDrop p avail)

/-- Embedding of `PinSet::new` from `src/pin/pinset.rs` (lines 18-48):
allocate each requested pin in array order; on the first failure, drop
every already-acquired pin (in allocation order) and return `None`; if
all `COUNT` allocations succeed, return the array of acquired pins.
`acc` holds the already-acquired pins, most recent first. -/
def pinSetNewAux (pins : List Nat) (acc : List Nat) (avail : List Nat) :
    Option (List Nat) × List Nat :=
  match pins with
  | [] => (some acc.reverse, avail)
  | p :: rest =>
    match specPinNew p avail with
    | (some q, updated) => pinSetNewAux rest (q :: acc) updated
    | (none, updated) => (none, releaseList acc.reverse updated)

/-- Entry point of the `PinSet::new` embedding. -/
def PinSet.new (pins : List Nat) (avail : List Nat) : Option (List Nat) × List Nat :=
  pinSetNewAux pins [] avail

/-! ## GPIO pin register writes (`src/gpio/pin.rs`)

A `GpioPin` holds bit-band aliases for its pin's input, output, direction
and resistor-enable register bits; a write through an alias replaces just
that pin's bit.  The per-pin register state is the triple of those bits,
and a mode transition or output operation is a sequence of single-bit
writes, with `compiler_fence(Ordering::SeqCst)` marked explicitly. -/

/-- Register state of one GPIO pin: the values (0 or 1) of its output,
direction and resistor-enable bits as seen through the bit-band aliases
held by `GpioPin` in `src/gpio/pin.rs`. -/
structure PinBits where
  output : Nat
  direction : Nat
  resistor_enable : Nat
deriving DecidableEq, Repr

/-- One step of a GPIO pin operation: a volatile single-bit write through
one of the pin's bit-band aliases, or a `compiler_fence`. -/
inductive PinWrite where
  | writeOutput (v : Nat)
  | writeDirection (v : Nat)
  | writeResistorEnable (v : Nat)
  | fence
deriving DecidableEq, Repr

/-- Applies one write step to the pin's register state; a fence changes
nothing (it only constrains reordering, which the sequential embedding
already fixes). -/
def applyPinWrite (s : PinBits) (w : PinWrite) : PinBits :=
  match w with
  | .writeOutput v => { s with output := v }
  | .writeDirection v => { s with direction := v }
  | .writeResistorEnable v => { s with resistor_enable := v }
  | .fence => s

/-- Runs a sequence of write steps from a starting register state. -/
def runPinWrites (s : PinBits) (ws : List PinWrite) : PinBits :=
  match ws with
  | [] => s
  | w :: rest => runPinWrites (applyPinWrite s w) rest

/-- All states observable while a sequence of writes executes: the state
before the first step and after every step. -/
def pinWriteStates (s : PinBits) (ws : List PinWrite) : List PinBits :=
  match ws with
  | [] => [s]
  | w :: rest => s :: pinWriteStates (applyPinWrite s w) rest

/-- Write sequence of `GpioPin::<GpioOutConfig<OpenCollector>>::set_no_sync`
(`src/gpio/pin.rs` lines 500-504): `*direction = 0;`
`compiler_fence(SeqCst);` `*output = 1;`. -/
def opencollector_set_no_sync : List PinWrite :=
  [.writeDirection 0, .fence, .writeOutput 1]

/-- Write sequence of `GpioPin::<GpioOutConfig<OpenCollector>>::clear_no_sync`
(`src/gpio/pin.rs` lines 511-515): `*output = 0;`
`compiler_fence(SeqCst);` `*direction = 1;`. -/
def opencollector_clear_no_sync : List PinWrite :=
  [.writeOutput 0, .fence, .writeDirection 1]

/-- Write sequence of `GpioPin::to_output_pushpull_no_sync`
(`src/gpio/pin.rs` lines 297-299): `*output = 0;` `*direction = 1;`. -/
def to_output_pushpull_no_sync : List PinWrite :=
  [.writeOutput 0, .writeDirection 1]

/-- A pin drives a stale high level when its direction bit says output
while its output bit is still high — the electrically dangerous state an
open-collector pin must never present. -/
def drivingHigh (s : PinBits) : Prop := s.direction = 1 ∧ s.output = 1

/-! ## GPIO port bus (`src/gpio/bus/portbus.rs`) -/

/-- Register words of one 16-bit GPIO port as laid out by `struct GpioPort`
in `src/gpio/mod.rs`, restricted to the words the embedded operations
touch. -/
structure PortWords where
  output : Nat
  direction : Nat
  resistor_enable : Nat
  select_0 : Nat
  select_1 : Nat
deriving DecidableEq, Repr

/-- Constant `ALL_PINS_MASK` from `src/gpio/bus/portbus.rs`. -/
def ALL_PINS_MASK : Nat := 0xFFFF

/-- Embedding of `GpioPortBus::to_output_pushpull` from
`src/gpio/bus/portbus.rs` (lines 103-114):
`output.set_halfword(0)` followed by `direction.set_halfword(ALL_PINS_MASK)`. -/
def GpioPortBus.to_output_pushpull (s : PortWords) : PortWords :=
  let s1 := { s with output := 0 }
  { s1 with direction := ALL_PINS_MASK }

/-- Embedding of the function-select reset performed by `gpio_port_bus_new`
(`src/gpio/bus/portbus.rs` lines 408-419): write `sel0 & sel1` to the
complement-selection register (which flips both select bits for every pin
whose bit is set), then write 0 to `select_0` and to `select_1`.  The
complement write is modelled by its documented register effect
(`src/gpio/mod.rs` line 138: "If 1 is written, inverts both bits of the
function select for a given pin"), truncated to the 16-bit registers. -/
def gpio_port_bus_new_selects (s : PortWords) : PortWords :=
  let selc := s.select_0 &&& s.select_1
  let s1 := { s with select_0 := (s.select_0 ^^^ selc) % 2 ^ 16,
                     select_1 := (s.select_1 ^^^ selc) % 2 ^ 16 }
  let s2 := { s1 with select_0 := 0 }
  { s2 with select_1 := 0 }

/-! ## Port-in-use token (`src/gpio/pin.rs`, `src/gpio/bus/portbus.rs`)

`GpioPortInUseToken`, its `free_mask` field and the global
`GPIO_PORT_IN_USE_LOCK` word are referenced by `src/gpio/pin.rs` and
`src/gpio/bus/portbus.rs` but their definitions (and the token's `Drop`)
are not under `src/`; the token's release is therefore modelled from the
spec. -/

/-- The `port_in_use_mask` computed by `gpio_pin_new` in `src/gpio/pin.rs`
(lines 556-559): one bit per physical half-port — bit `0x2` shifted for an
offset above 7, bit `0x1` otherwise, shifted by twice the 16-bit port
index. -/
def pin_port_in_use_mask (port_index_16 pin_offset : Nat) : Nat :=
  (if pin_offset > 7 then 0x2 else 0x1) <<< (port_index_16 * 2)

/-- Embedding of `GpioPin::get_port_in_use_token` from `src/gpio/pin.rs`
(lines 345-356): `fetch_or` the pin's `port_in_use_mask` into the global
lock word; fail if any of those bits was already set, otherwise hand out
a token carrying exactly that mask as its `free_mask`.  Returns
`(free_mask of the token if granted, updated lock word)`. -/
def get_port_in_use_token (port_in_use_mask lock : Nat) : Option Nat × Nat :=
  let previous_value := lock
  let updated := lock ||| port_in_use_mask
  if previous_value &&& port_in_use_mask != 0 then (none, updated)
  else (some port_in_use_mask, updated)

/-- Embedding of `GpioPortBus::get_port_in_use_token` from
`src/gpio/bus/portbus.rs` (lines 141-144): always returns a token with
`free_mask = 0` and never touches the lock word. -/
def GpioPortBus.get_port_in_use_token (lock : Nat) : Option Nat × Nat :=
  (some 0, lock)

/-- Modelled from the spec: `Drop for GpioPortInUseToken`, absent from
`src/` — "a token whose Drop implementation clears precisely those bits
via fetch-and-clear" (§4.5), i.e. `fetch_and(!free_mask)` on the global
lock word. -/
def tokenDrop (free_mask lock : Nat) : Nat := lock &&& not16 free_mask

/-! ## Function-select reset for a single pin (`src/gpio/pin.rs`) -/

/-- Embedding of `set_pin_function_to_gpio` from `src/gpio/pin.rs` (lines
584-615), including the slip on line 590: `sel1_addr` is computed from
`port.select_0`, so `sel1_reg` aliases the select-0 bit-band word — both
the read of "select 1" and any write through `sel1_reg` actually hit
select 0.  `sel0`/`sel1` are this pin's actual select bits (0 or 1); the
complement-selection write inverts both actual bits.  Returns the pin's
select bits after the call. -/
def set_pin_function_to_gpio (sel0 sel1 : Nat) : Nat × Nat :=
  let sel0_read := sel0
  let sel1_read := sel0
  let select_status := (sel1_read <<< 1) ||| sel0_read
  if select_status = 1 then
    (0, sel1)
  else if select_status = 2 then
    (0, sel1)
  else if select_status = 3 then
    ((sel0 ^^^ 1) % 2, (sel1 ^^^ 1) % 2)
  else
    (sel0, sel1)

/-! ## GPIO port lookup (`src/gpio/mod.rs`) -/

/-- Base address of the GPIO port modules: `PERIPHERAL_BASE + 0x4C00` with
`PERIPHERAL_BASE = 0x4000_0000` (`src/lib.rs`, `src/gpio/mod.rs`). -/
def PORT_MODULE : Nat := 0x40000000 + 0x4C00

/-- Constant `PORT_J_OFFSET` from `src/gpio/mod.rs`. -/
def PORT_J_OFFSET : Nat := 0x120

/-- Size in bytes of `struct GpioPort` (`src/gpio/mod.rs` lines 107-154):
sixteen `u16` fields under `#[repr(C)]`, hence 32 bytes. -/
def size_of_GpioPort : Nat := 32

/-- Embedding of `get_gpio_port` from `src/gpio/mod.rs` (lines 167-180),
reduced to the address it dereferences: a match on the port-name character
with arms for 'A'-'E' and 'J' and a catch-all arm `_ => 0`. -/
def get_gpio_port_address (port_name : Char) : Nat :=
  let port_offset :=
    if port_name = 'A' then 0
    else if port_name = 'B' then size_of_GpioPort
    else if port_name = 'C' then size_of_GpioPort * 2
    else if port_name = 'D' then size_of_GpioPort * 3
    else if port_name = 'E' then size_of_GpioPort * 4
    else if port_name = 'J' then PORT_J_OFFSET
    else 0
  PORT_MODULE + port_offset

/-- Theorem C1 (code evaluated at the failing input).  On the `vqfn`
package, `Pin::new(PJ_0)` succeeds, but because the source uses
`fetch_nand` (new value `!(old & mask)`) instead of a fetch-and-clear, it
rewrites port J's availability word from `0x003F` to `0xFFFE` instead of
`0x003E`: bit 6 — a pin that is not even bonded out on this package —
flips from unavailable to available.  This refutes the conjunct "on
success clears exactly that pin's bit, leaving every other bit of that
port's availability word unchanged". -/
theorem pin_new_fetch_nand_corrupts_other_bits :
    (Pin.new PinName.PJ_0 PORT_PINS_AVAILABLE_vqfn).1 = some PinName.PJ_0 ∧
    (Pin.new PinName.PJ_0 PORT_PINS_AVAILABLE_vqfn).2.getD 5 0 = 0xFFFE ∧
    (PORT_PINS_AVAILABLE_vqfn.getD 5 0).testBit 6 = false ∧
    ((Pin.new PinName.PJ_0 PORT_PINS_AVAILABLE_vqfn).2.getD 5 0).testBit 6 = true := by
  decide

/-- Theorem C2 (code evaluated at the failing input).  Three consecutive
`Pin::new(PJ_0)` calls on the `vqfn` package, with no intervening drop:
the first succeeds, the second correctly returns `None`, but its
`fetch_nand` writes `!(old & mask) = 0xFFFF`, re-setting PJ_0's
availability bit while the first `Pin` is still alive — so the third call
succeeds, producing two live `Pin`s for the same pin name and refuting
the exclusivity invariant. -/
theorem pin_new_exclusivity_violated :
    (Pin.new PinName.PJ_0 PORT_PINS_AVAILABLE_vqfn).1 = some PinName.PJ_0 ∧
    (Pin.new PinName.PJ_0 (Pin.new PinName.PJ_0 PORT_PINS_AVAILABLE_vqfn).2).1 = none ∧
    (Pin.new PinName.PJ_0
      (Pin.new PinName.PJ_0 (Pin.new PinName.PJ_0 PORT_PINS_AVAILABLE_vqfn).2).2).1 =
      some PinName.PJ_0 := by
  decide

/-! ## Helper lemmas -/

/-- Reading an updated slot of the availability table. -/
theorem list_getD_set_eq {l : List Nat} {i : Nat} (h : i < l.length) (a : Nat) :
    (l.set i a).getD i 0 = a := by
  simp [List.getD_eq_getElem?_getD, List.getElem?_set_self (by simpa using h)]

/-- Reading a slot of the availability table beyond its length. -/
theorem list_getD_eq_zero {l : List Nat} {i : Nat} (h : l.length ≤ i) :
    l.getD i 0 = 0 := by
  simp [List.getD_eq_getElem?_getD, List.getElem?_eq_none h]

/-- Writing back the value a slot already holds changes nothing. -/
theorem list_set_getD_self (l : List Nat) (i : Nat) : l.set i (l.getD i 0) = l := by
  by_cases h : i < l.length
  · apply List.ext_getElem?
    intro j
    by_cases hij : i = j
    · subst hij
      simp [List.getElem?_set_self h, List.getD_eq_getElem?_getD,
        List.getElem?_eq_getElem h]
    · simp [List.getElem?_set_ne hij]
  · exact List.set_eq_of_length_le (Nat.le_of_not_lt h)

/-- Every slot of a 16-bit availability table is a 16-bit value. -/
theorem list_getD_lt_two_pow {l : List Nat} (hb : ∀ w ∈ l, w < 2 ^ 16) (i : Nat) :
    l.getD i 0 < 2 ^ 16 := by
  by_cases h : i < l.length
  · have : l.getD i 0 = l[i] := by
      simp [List.getD_eq_getElem?_getD, List.getElem?_eq_getElem h]
    rw [this]
    exact hb _ (l.getElem_mem h)
  · rw [list_getD_eq_zero (Nat.le_of_not_lt h)]
    exact Nat.pos_pow_of_pos 16 (by norm_num)

/-- Bits at or above position 16 of a 16-bit value are clear. -/
theorem testBit_of_lt_two_pow {v i : Nat} (hv : v < 2 ^ 16) (hi : 16 ≤ i) :
    v.testBit i = false :=
  Nat.testBit_lt_two_pow (Nat.lt_of_lt_of_le hv (Nat.pow_le_pow_right (by norm_num) hi))

/-- Bit of the 16-bit complement. -/
theorem testBit_not16 (x i : Nat) :
    (not16 x).testBit i = (decide (i < 16)).xor (x.testBit i) := by
  unfold not16
  rw [Nat.testBit_xor, Nat.testBit_two_pow_sub_one]

/-- Restoring `value & mask` after clearing `mask` reproduces the original
16-bit word: the effect pair of `Port::new`'s failure path. -/
theorem land_not16_lor_land (v m : Nat) (hv : v < 2 ^ 16) :
    (v &&& not16 m) ||| (v &&& m) = v := by
  apply Nat.eq_of_testBit_eq
  intro i
  by_cases hi : i < 16
  · simp [Nat.testBit_or, Nat.testBit_and, testBit_not16, hi]
    cases hvi : v.testBit i <;> cases hmi : m.testBit i <;> simp
  · have hvf : v.testBit i = false := testBit_of_lt_two_pow hv (Nat.le_of_not_lt hi)
    simp [Nat.testBit_or, Nat.testBit_and, testBit_not16, hi, hvf]

/-- Clearing a mask that has no bit in common with a 16-bit word is a
no-op: the effect of a failed fetch-and-clear allocation. -/
theorem land_not16_of_land_eq_zero (v m : Nat) (hv : v < 2 ^ 16) (h : v &&& m = 0) :
    v &&& not16 m = v := by
  apply Nat.eq_of_testBit_eq
  intro i
  have hzero : (v &&& m).testBit i = false := by rw [h]; simp
  rw [Nat.testBit_and] at hzero
  by_cases hi : i < 16
  · simp only [Nat.testBit_and, testBit_not16, hi, decide_True]
    cases hvi : v.testBit i <;> cases hmi : m.testBit i <;> simp_all
  · have hvf : v.testBit i = false := testBit_of_lt_two_pow hv (Nat.le_of_not_lt hi)
    simp [Nat.testBit_and, hvf]

/-- Setting a single bit back after clearing it reproduces the original
16-bit word, provided the bit was set: the effect pair of a successful
fetch-and-clear allocation followed by the releasing fetch-or. -/
theorem clear_bit_then_or_bit (v k : Nat) (hv : v < 2 ^ 16)
    (hset : v &&& (1 <<< k) ≠ 0) :
    (v &&& not16 (1 <<< k)) ||| (1 <<< k) = v := by
  rw [Nat.one_shiftLeft] at hset ⊢
  have hbit : v.testBit k = true := by
    by_contra hfalse
    apply hset
    apply Nat.eq_of_testBit_eq
    intro i
    rw [Nat.testBit_and, Nat.zero_testBit]
    by_cases hik : k = i
    · subst hik
      simp [Bool.eq_false_iff.mpr hfalse]
    · simp [Nat.testBit_two_pow_of_ne hik]
  have hk : k < 16 := by
    by_contra hge
    rw [testBit_of_lt_two_pow hv (Nat.le_of_not_lt hge)] at hbit
    exact Bool.false_ne_true hbit
  apply Nat.eq_of_testBit_eq
  intro i
  by_cases hik : k = i
  · subst hik
    simp [Nat.testBit_or, Nat.testBit_two_pow_self, hbit]
  · by_cases hi : i < 16
    · simp [Nat.testBit_or, Nat.testBit_and, testBit_not16, hi,
        Nat.testBit_two_pow_of_ne hik]
    · have hvf : v.testBit i = false := testBit_of_lt_two_pow hv (Nat.le_of_not_lt hi)
      simp [Nat.testBit_or, Nat.testBit_and, testBit_not16, hi, hvf,
        Nat.testBit_two_pow_of_ne hik]

/-- Or-ing a disjoint 16-bit mask in and then clearing it reproduces the
original 16-bit word: acquiring and then dropping a port-in-use token. -/
theorem lor_land_not16 (lock m : Nat) (hl : lock < 2 ^ 16) (hm : m < 2 ^ 16)
    (hdisj : lock &&& m = 0) :
    (lock ||| m) &&& not16 m = lock := by
  apply Nat.eq_of_testBit_eq
  intro i
  have hzero : (lock &&& m).testBit i = false := by rw [hdisj]; simp
  rw [Nat.testBit_and] at hzero
  by_cases hi : i < 16
  · simp only [Nat.testBit_and, Nat.testBit_or, testBit_not16, hi, decide_True]
    cases hli : lock.testBit i <;> cases hmi : m.testBit i <;> simp_all
  · have hlf : lock.testBit i = false := testBit_of_lt_two_pow hl (Nat.le_of_not_lt hi)
    have hmf : m.testBit i = false := testBit_of_lt_two_pow hm (Nat.le_of_not_lt hi)
    simp [Nat.testBit_and, Nat.testBit_or, hlf, hmf]

/-- Theorem C4.  When `Port::new` is attempted while the port's
availability word is missing at least one required bit (some pins
individually owned), the allocation returns `None` and the availability
table afterwards equals the table before the attempt: the `fetch_or` of
`value & required_pins` restores exactly the bits the `fetch_and` had
cleared, and the bits of individually owned pins (clear before) are clear
after, still owned by their holders. -/
theorem port_new_failed_allocation_preserves_state (port : Names.PortName)
    (avail : List Nat) (hb : ∀ w ∈ avail, w < 2 ^ 16)
    (hmiss : avail.getD port.get_16_bit_port_index 0 &&& Port.required_pins port ≠
      Port.required_pins port) :
    (Port.new port avail).1 = none ∧ (Port.new port avail).2 = avail := by
  unfold Port.new
  have hbeq : (avail.getD port.get_16_bit_port_index 0 &&& Port.required_pins port ==
      Port.required_pins port) = false := by
    simpa using hmiss
  simp only [hbeq, Bool.false_eq_true, if_false]
  refine ⟨trivial, ?_⟩
  by_cases hlen : port.get_16_bit_port_index < avail.length
  · have hv : avail.getD port.get_16_bit_port_index 0 < 2 ^ 16 := list_getD_lt_two_pow hb _
    rw [list_getD_set_eq hlen, List.set_set, land_not16_lor_land _ _ hv,
      list_set_getD_self]
  · have hle := Nat.le_of_not_lt hlen
    rw [List.set_eq_of_length_le hle, List.set_eq_of_length_le hle]

/-- Witness for C4: ports 1 owns pins P1_0 and P1_1 individually (port A
word `0xFFFC`); a `Port::new(PORT1)` attempt fails and leaves the table —
including the two owned bits — untouched. -/
theorem port_new_failed_allocation_preserves_state_witness :
    (Port.new ⟨0, PortSize.port8Bit⟩
        [0xFFFC, 0xFFFF, 0xFFFF, 0xFFFF, 0xFFFF, 0x003F]).1 = none ∧
    (Port.new ⟨0, PortSize.port8Bit⟩
        [0xFFFC, 0xFFFF, 0xFFFF, 0xFFFF, 0xFFFF, 0x003F]).2 =
      [0xFFFC, 0xFFFF, 0xFFFF, 0xFFFF, 0xFFFF, 0x003F] :=
  port_new_failed_allocation_preserves_state ⟨0, PortSize.port8Bit⟩
    [0xFFFC, 0xFFFF, 0xFFFF, 0xFFFF, 0xFFFF, 0x003F] (by decide) (by decide)

/-- Theorem C6.  For every valid pin name the granularity conversions of
`src/pin/names.rs` round-trip — `to_16_bit (to_8_bit p) = to_16_bit p`
and `to_8_bit (to_16_bit p) = to_8_bit p` — and for a 16-bit pin name
`to_8_bit` yields the upper-half 8-bit port (number `2n + 1`) with offset
reduced by 8 when the offset is at least 8, and the lower-half 8-bit port
(number `2n`) with the same offset otherwise. -/
theorem pin_name_conversion_round_trip (p : Names.PinName)
    (h : Names.isValidPinName p = true) :
    (p.to_8_bit).to_16_bit = p.to_16_bit ∧
    (p.to_16_bit).to_8_bit = p.to_8_bit ∧
    (p.port_name.size = PortSize.port16Bit → 8 ≤ p.pin_offset →
      p.to_8_bit = ⟨⟨p.port_name.number * 2 + 1, PortSize.port8Bit⟩, p.pin_offset - 8⟩) ∧
    (p.port_name.size = PortSize.port16Bit → p.pin_offset < 8 →
      p.to_8_bit = ⟨⟨p.port_name.number * 2, PortSize.port8Bit⟩, p.pin_offset⟩) := by
  obtain ⟨⟨n, sz⟩, off⟩ := p
  cases sz with
  | port16Bit =>
    by_cases hoff : off < 8
    · simp [Names.PinName.to_8_bit, Names.PinName.to_16_bit,
        Names.PortName.is_upper_half_port, Names.PortName.get_8_bit_port_index,
        Names.PortName.get_16_bit_port_index, Nat.and_one_is_mod, hoff,
        Nat.mul_mod_left, Nat.mul_div_cancel_left]
    · have hmod : (n * 2 + 1) % 2 = 1 := by omega
      have hdiv : (n * 2 + 1) / 2 = n := by omega
      simp [Names.PinName.to_8_bit, Names.PinName.to_16_bit,
        Names.PortName.is_upper_half_port, Names.PortName.get_8_bit_port_index,
        Names.PortName.get_16_bit_port_index, Nat.and_one_is_mod, hoff, hmod, hdiv]
      omega
  | port8Bit =>
    have hoff8 : off < 8 := by
      simp [Names.isValidPinName] at h
      omega
    by_cases hpar : n % 2 = 1
    · have hdiv : n / 2 * 2 + 1 = n := by omega
      simp [Names.PinName.to_8_bit, Names.PinName.to_16_bit,
        Names.PortName.is_upper_half_port, Names.PortName.get_8_bit_port_index,
        Names.PortName.get_16_bit_port_index, Nat.and_one_is_mod, hpar, hdiv]
    · have hpar0 : n % 2 = 0 := by omega
      have hdiv : n / 2 * 2 = n := by omega
      simp [Names.PinName.to_8_bit, Names.PinName.to_16_bit,
        Names.PortName.is_upper_half_port, Names.PortName.get_8_bit_port_index,
        Names.PortName.get_16_bit_port_index, Nat.and_one_is_mod, hpar0, hdiv, hoff8]

/-- Witness for C6: the round trip evaluated at the 16-bit pin name PB_8
(its 8-bit form is P4_0: upper-half port number 3, offset 0). -/
theorem pin_name_conversion_round_trip_witness :
    ((⟨⟨1, PortSize.port16Bit⟩, 8⟩ : Names.PinName).to_8_bit).to_16_bit =
      (⟨⟨1, PortSize.port16Bit⟩, 8⟩ : Names.PinName).to_16_bit ∧
    ((⟨⟨1, PortSize.port16Bit⟩, 8⟩ : Names.PinName).to_16_bit).to_8_bit =
      (⟨⟨1, PortSize.port16Bit⟩, 8⟩ : Names.PinName).to_8_bit ∧
    ((⟨⟨1, PortSize.port16Bit⟩, 8⟩ : Names.PinName).port_name.size = PortSize.port16Bit →
      8 ≤ (⟨⟨1, PortSize.port16Bit⟩, 8⟩ : Names.PinName).pin_offset →
      (⟨⟨1, PortSize.port16Bit⟩, 8⟩ : Names.PinName).to_8_bit =
        ⟨⟨1 * 2 + 1, PortSize.port8Bit⟩, 8 - 8⟩) ∧
    ((⟨⟨1, PortSize.port16Bit⟩, 8⟩ : Names.PinName).port_name.size = PortSize.port16Bit →
      (⟨⟨1, PortSize.port16Bit⟩, 8⟩ : Names.PinName).pin_offset < 8 →
      (⟨⟨1, PortSize.port16Bit⟩, 8⟩ : Names.PinName).to_8_bit =
        ⟨⟨1 * 2, PortSize.port8Bit⟩, 8⟩) :=
  pin_name_conversion_round_trip ⟨⟨1, PortSize.port16Bit⟩, 8⟩ (by decide)

/-- Theorem C10.  `get_gpio_port` is total: for every port-name character
outside `{A, B, C, D, E, J}` the match falls through to offset 0, so the
returned register block address is `PORT_MODULE` itself — the same block
returned for port 'A' — silently aliasing port A instead of signalling an
error. -/
theorem get_gpio_port_fallthrough_aliases_port_a (c : Char)
    (h : c ∉ (['A', 'B', 'C', 'D', 'E', 'J'] : List Char)) :
    get_gpio_port_address c = PORT_MODULE ∧
    get_gpio_port_address c = get_gpio_port_address 'A' := by
  simp only [List.mem_cons, List.not_mem_nil, or_false, not_or] at h
  obtain ⟨hA, hB, hC, hD, hE, hJ⟩ := h
  unfold get_gpio_port_address
  simp [hA, hB, hC, hD, hE, hJ]

/-- Witness for C10: the character 'X' names no port, and `get_gpio_port`
hands back port A's register block for it. -/
theorem get_gpio_port_fallthrough_aliases_port_a_witness :
    get_gpio_port_address 'X' = PORT_MODULE ∧
    get_gpio_port_address 'X' = get_gpio_port_address 'A' :=
  get_gpio_port_fallthrough_aliases_port_a 'X' (by decide)

/-- Theorem C3.  Open-collector `set_no_sync` writes the direction bit to
0 (releasing the line) before writing the output bit, and `clear_no_sync`
writes the output bit to 0 before writing the direction bit to 1, each
with a fence between its two writes; consequently, starting from the
state left by a completed `set()`, no state observable before, between or
after the steps of the following `clear()` has direction=output while a
stale high output level is still latched (direction = 1 and output = 1
never hold together). -/
theorem opencollector_clear_after_set_never_drives_high (s0 : PinBits) :
    opencollector_set_no_sync =
      [PinWrite.writeDirection 0, PinWrite.fence, PinWrite.writeOutput 1] ∧
    opencollector_clear_no_sync =
      [PinWrite.writeOutput 0, PinWrite.fence, PinWrite.writeDirection 1] ∧
    ∀ s ∈ pinWriteStates (runPinWrites s0 opencollector_set_no_sync)
        opencollector_clear_no_sync, ¬ drivingHigh s := by
  refine ⟨rfl, rfl, ?_⟩
  obtain ⟨o, d, r⟩ := s0
  intro s hs
  simp only [opencollector_set_no_sync, opencollector_clear_no_sync, runPinWrites,
    applyPinWrite, pinWriteStates, List.mem_cons, List.not_mem_nil, or_false] at hs
  rcases hs with h | h | h | h <;> subst h <;> simp [drivingHigh]

/-- Witness for C3: the guarantee instantiated at the reset register state
(all bits low). -/
theorem opencollector_clear_after_set_never_drives_high_witness :
    opencollector_set_no_sync =
      [PinWrite.writeDirection 0, PinWrite.fence, PinWrite.writeOutput 1] ∧
    opencollector_clear_no_sync =
      [PinWrite.writeOutput 0, PinWrite.fence, PinWrite.writeDirection 1] ∧
    ∀ s ∈ pinWriteStates (runPinWrites ⟨0, 0, 0⟩ opencollector_set_no_sync)
        opencollector_clear_no_sync, ¬ drivingHigh s :=
  opencollector_clear_after_set_never_drives_high ⟨0, 0, 0⟩

/-- Theorem C7.  The push-pull output transition writes the output bit to
0 before setting the direction bit to 1, and after it completes — from
any prior register state, hence from any prior mode — the pin's direction
bit reads 1 (output) and its output bit reads 0.  The same holds for the
bus variant `GpioPortBus::to_output_pushpull`, which zeroes the whole
output word and then sets the whole direction word, so every pin of the
port ends with direction 1 and output 0. -/
theorem to_output_pushpull_register_effects :
    to_output_pushpull_no_sync = [PinWrite.writeOutput 0, PinWrite.writeDirection 1] ∧
    (∀ s0 : PinBits,
      (runPinWrites s0 to_output_pushpull_no_sync).direction = 1 ∧
      (runPinWrites s0 to_output_pushpull_no_sync).output = 0) ∧
    (∀ w : PortWords, ∀ i, i < 16 →
      (GpioPortBus.to_output_pushpull w).direction.testBit i = true ∧
      (GpioPortBus.to_output_pushpull w).output.testBit i = false) := by
  refine ⟨rfl, ?_, ?_⟩
  · intro s0
    obtain ⟨o, d, r⟩ := s0
    simp [to_output_pushpull_no_sync, runPinWrites, applyPinWrite]
  · intro w i hi
    have hmask : (ALL_PINS_MASK : Nat) = 2 ^ 16 - 1 := rfl
    constructor
    · simp only [GpioPortBus.to_output_pushpull]
      rw [hmask, Nat.testBit_two_pow_sub_one]
      simpa using hi
    · simp [GpioPortBus.to_output_pushpull]

/-- Theorem C9 (code evaluated at the failing input).  `gpio_pin_new`
claims to reset both alternate-function select bits to GPIO, but
`set_pin_function_to_gpio` computes `sel1_addr` from `port.select_0`
(`src/gpio/pin.rs` line 590), so the pin's select-1 bit is never read: a
pin whose select bits are (select_0 = 0, select_1 = 1) computes
`select_status = 0`, takes the assertion arm and leaves select_1 set. -/
theorem set_pin_function_to_gpio_misses_select1 :
    set_pin_function_to_gpio 0 1 = (0, 1) ∧ (set_pin_function_to_gpio 0 1).2 ≠ 0 := by
  decide

/-- Theorem C8.  The pin-level token acquisition fetch-ors exactly the
single half-port bit `pin_port_in_use_mask` into the global in-use word
and fails exactly when any of those bits was already set; acquiring a
second token while one is live therefore returns `none`, dropping the
first token (spec-modelled fetch-and-clear of its `free_mask`) restores
the lock word, after which a third acquisition succeeds; and the bus
token carries `free_mask = 0`, so handing it out touches nothing and
releasing it is a no-op. -/
theorem port_in_use_token_mutual_exclusion (idx off lock : Nat)
    (hidx : idx ≤ 5) (hlock : lock < 2 ^ 16)
    (hfree : lock &&& pin_port_in_use_mask idx off = 0) :
    (∀ lock2 : Nat,
      (get_port_in_use_token (pin_port_in_use_mask idx off) lock2).1 = none ↔
        lock2 &&& pin_port_in_use_mask idx off ≠ 0) ∧
    (get_port_in_use_token (pin_port_in_use_mask idx off) lock).1 =
      some (pin_port_in_use_mask idx off) ∧
    (get_port_in_use_token (pin_port_in_use_mask idx off)
        (get_port_in_use_token (pin_port_in_use_mask idx off) lock).2).1 = none ∧
    tokenDrop (pin_port_in_use_mask idx off)
        (get_port_in_use_token (pin_port_in_use_mask idx off) lock).2 = lock ∧
    (get_port_in_use_token (pin_port_in_use_mask idx off)
        (tokenDrop (pin_port_in_use_mask idx off)
          (get_port_in_use_token (pin_port_in_use_mask idx off) lock).2)).1 =
      some (pin_port_in_use_mask idx off) ∧
    (GpioPortBus.get_port_in_use_token lock).1 = some 0 ∧
    (GpioPortBus.get_port_in_use_token lock).2 = lock ∧
    tokenDrop 0 lock = lock := by
  have hpow : (2 : Nat) ^ (idx * 2) ≤ 1024 := by
    calc (2 : Nat) ^ (idx * 2) ≤ 2 ^ 10 := Nat.pow_le_pow_right (by norm_num) (by omega)
    _ = 1024 := by norm_num
  have hmask_ne : pin_port_in_use_mask idx off ≠ 0 := by
    unfold pin_port_in_use_mask
    by_cases hoff : off > 7 <;> simp [hoff, Nat.shiftLeft_eq]
  have hmask_lt : pin_port_in_use_mask idx off < 2 ^ 16 := by
    have h16 : (2 : Nat) ^ 16 = 65536 := by norm_num
    unfold pin_port_in_use_mask
    by_cases hoff : off > 7 <;> simp [hoff, Nat.shiftLeft_eq, h16] <;> omega
  have hsnd : ∀ lock2 : Nat,
      (get_port_in_use_token (pin_port_in_use_mask idx off) lock2).2 =
        lock2 ||| pin_port_in_use_mask idx off := by
    intro lock2
    by_cases hc : lock2 &&& pin_port_in_use_mask idx off = 0 <;>
      simp [get_port_in_use_token, hc]
  have hiff : ∀ lock2 : Nat,
      (get_port_in_use_token (pin_port_in_use_mask idx off) lock2).1 = none ↔
        lock2 &&& pin_port_in_use_mask idx off ≠ 0 := by
    intro lock2
    unfold get_port_in_use_token
    by_cases hc : lock2 &&& pin_port_in_use_mask idx off = 0 <;> simp [hc]
  have hfirst : (get_port_in_use_token (pin_port_in_use_mask idx off) lock).1 =
      some (pin_port_in_use_mask idx off) := by
    unfold get_port_in_use_token
    simp [hfree]
  have hor_and : (lock ||| pin_port_in_use_mask idx off) &&& pin_port_in_use_mask idx off =
      pin_port_in_use_mask idx off := by
    rw [Nat.and_distrib_right, hfree, Nat.and_self, Nat.zero_or]
  have hdrop : tokenDrop (pin_port_in_use_mask idx off)
      (get_port_in_use_token (pin_port_in_use_mask idx off) lock).2 = lock := by
    rw [hsnd]
    exact lor_land_not16 lock _ hlock hmask_lt hfree
  refine ⟨hiff, hfirst, ?_, hdrop, ?_, rfl, rfl, ?_⟩
  · rw [hiff, hsnd, hor_and]
    exact hmask_ne
  · rw [hdrop]
    exact hfirst
  · unfold tokenDrop not16
    rw [Nat.xor_zero, Nat.and_pow_two_sub_one_eq_mod]
    exact Nat.mod_eq_of_lt hlock

/-- Witness for C8: pin P1_0 (16-bit port index 0, offset 0, mask `0x1`)
against an initially free lock word. -/
theorem port_in_use_token_mutual_exclusion_witness :
    (∀ lock2 : Nat,
      (get_port_in_use_token (pin_port_in_use_mask 0 0) lock2).1 = none ↔
        lock2 &&& pin_port_in_use_mask 0 0 ≠ 0) ∧
    (get_port_in_use_token (pin_port_in_use_mask 0 0) 0).1 =
      some (pin_port_in_use_mask 0 0) ∧
    (get_port_in_use_token (pin_port_in_use_mask 0 0)
        (get_port_in_use_token (pin_port_in_use_mask 0 0) 0).2).1 = none ∧
    tokenDrop (pin_port_in_use_mask 0 0)
        (get_port_in_use_token (pin_port_in_use_mask 0 0) 0).2 = 0 ∧
    (get_port_in_use_token (pin_port_in_use_mask 0 0)
        (tokenDrop (pin_port_in_use_mask 0 0)
          (get_port_in_use_token (pin_port_in_use_mask 0 0) 0).2)).1 =
      some (pin_port_in_use_mask 0 0) ∧
    (GpioPortBus.get_port_in_use_token 0).1 = some 0 ∧
    (GpioPortBus.get_port_in_use_token 0).2 = 0 ∧
    tokenDrop 0 0 = 0 :=
  port_in_use_token_mutual_exclusion 0 0 0 (by decide) (by norm_num) (by decide)

/-- Reading a slot other than the one just written. -/
theorem list_getD_set_ne {l : List Nat} {i j : Nat} (h : i ≠ j) (a : Nat) :
    (l.set i a).getD j 0 = l.getD j 0 := by
  simp [List.getD_eq_getElem?_getD, List.getElem?_set_ne h]

/-- The updated table produced by the spec-modelled pin allocation,
independent of whether the allocation succeeded. -/
theorem specPinNew_snd (p : Nat) (s : List Nat) :
    (specPinNew p s).2 = s.set (extract_port_number p)
      ((s.getD (extract_port_number p) 0) &&& not16 (1 <<< extract_pin_number p)) := by
  simp only [specPinNew]
  by_cases hc : (s.getD (extract_port_number p) 0) &&& (1 <<< extract_pin_number p) = 0
  · rw [if_pos (by simpa using hc)]
  · rw [if_neg (by simpa using hc)]

/-- The result of the spec-modelled pin allocation: the pin when its
availability bit was set, `none` otherwise. -/
theorem specPinNew_fst (p : Nat) (s : List Nat) :
    (specPinNew p s).1 =
      if (s.getD (extract_port_number p) 0) &&& (1 <<< extract_pin_number p) = 0
      then none else some p := by
  simp only [specPinNew]
  by_cases hc : (s.getD (extract_port_number p) 0) &&& (1 <<< extract_pin_number p) = 0
  · rw [if_pos (by simpa using hc), if_pos hc]
  · rw [if_neg (by simpa using hc), if_neg hc]

/-- Pin allocation keeps every table word a 16-bit value. -/
theorem specPinNew_preserves_bounds (p : Nat) (s : List Nat)
    (hb : ∀ w ∈ s, w < 2 ^ 16) : ∀ w ∈ (specPinNew p s).2, w < 2 ^ 16 := by
  intro w hw
  rw [specPinNew_snd] at hw
  rcases List.mem_or_eq_of_mem_set hw with h | h
  · exact hb _ h
  · subst h
    rw [Nat.and_comm]
    exact Nat.and_lt_two_pow _ (list_getD_lt_two_pow hb _)

/-- Releases of two pins commute, whether or not they share a port word. -/
theorem specPinDrop_comm (p q : Nat) (s : List Nat) :
    specPinDrop p (specPinDrop q s) = specPinDrop q (specPinDrop p s) := by
  simp only [specPinDrop]
  by_cases hpq : extract_port_number p = extract_port_number q
  · rw [hpq]
    by_cases hlen : extract_port_number q < s.length
    · rw [list_getD_set_eq hlen, list_getD_set_eq hlen, List.set_set, List.set_set]
      rw [Nat.or_assoc, Nat.or_assoc, Nat.or_comm (1 <<< extract_pin_number q)]
    · have hle := Nat.le_of_not_lt hlen
      simp [List.set_eq_of_length_le hle]
  · rw [list_getD_set_ne hpq, list_getD_set_ne (Ne.symm hpq),
      List.set_comm _ _ _ (Ne.symm hpq)]

/-- A pending release can be pushed through a batch of releases. -/
theorem releaseList_specPinDrop (l : List Nat) (p : Nat) (s : List Nat) :
    releaseList l (specPinDrop p s) = specPinDrop p (releaseList l s) := by
  induction l generalizing s with
  | nil => rfl
  | cons q rest ih =>
    simp only [releaseList]
    rw [specPinDrop_comm q p s]
    exact ih (specPinDrop q s)

/-- Appending one pin to a release batch releases it last. -/
theorem releaseList_append_singleton (l : List Nat) (p : Nat) (s : List Nat) :
    releaseList (l ++ [p]) s = specPinDrop p (releaseList l s) := by
  induction l generalizing s with
  | nil => rfl
  | cons q rest ih =>
    simp only [List.cons_append, releaseList]
    exact ih (specPinDrop q s)

/-- Releasing a pin undoes its successful allocation. -/
theorem specPinDrop_specPinNew (p : Nat) (s : List Nat)
    (hb : ∀ w ∈ s, w < 2 ^ 16)
    (hsucc : (s.getD (extract_port_number p) 0) &&& (1 <<< extract_pin_number p) ≠ 0) :
    specPinDrop p (specPinNew p s).2 = s := by
  have hlen : extract_port_number p < s.length := by
    by_contra hnot
    rw [list_getD_eq_zero (Nat.le_of_not_lt hnot)] at hsucc
    simp at hsucc
  rw [specPinNew_snd]
  simp only [specPinDrop]
  rw [list_getD_set_eq hlen, List.set_set,
    clear_bit_then_or_bit _ _ (list_getD_lt_two_pow hb _) hsucc, list_set_getD_self]

/-- A failed fetch-and-clear allocation leaves the table unchanged. -/
theorem specPinNew_failure_noop (p : Nat) (s : List Nat)
    (hb : ∀ w ∈ s, w < 2 ^ 16)
    (hfail : (s.getD (extract_port_number p) 0) &&& (1 <<< extract_pin_number p) = 0) :
    (specPinNew p s).2 = s := by
  rw [specPinNew_snd,
    land_not16_of_land_eq_zero _ _ (list_getD_lt_two_pow hb _) hfail,
    list_set_getD_self]

/-- Invariant of the `PinSet::new` allocation loop: on failure the final
table equals the starting table with the accumulated pins released; on
success the returned set is the accumulated pins followed by the
remaining requests, in order. -/
theorem pinSetNewAux_spec (pins : List Nat) (acc : List Nat) (avail : List Nat)
    (hb : ∀ w ∈ avail, w < 2 ^ 16) :
    ((pinSetNewAux pins acc avail).1 = none →
      (pinSetNewAux pins acc avail).2 = releaseList acc.reverse avail) ∧
    ((pinSetNewAux pins acc avail).1 ≠ none →
      (pinSetNewAux pins acc avail).1 = some (acc.reverse ++ pins)) := by
  induction pins generalizing acc avail with
  | nil =>
    constructor
    · intro h
      simp [pinSetNewAux] at h
    · intro _
      simp [pinSetNewAux]
  | cons p rest ih =>
    rcases hspn : specPinNew p avail with ⟨r, updated⟩
    have hfst := specPinNew_fst p avail
    rw [hspn] at hfst
    cases r with
    | none =>
      have hcond : (avail.getD (extract_port_number p) 0) &&&
          (1 <<< extract_pin_number p) = 0 := by
        by_contra hc
        rw [if_neg hc] at hfst
        exact Option.noConfusion hfst
      have hupd : updated = avail := by
        have h := specPinNew_failure_noop p avail hb hcond
        rw [hspn] at h
        exact h
      have hstep : pinSetNewAux (p :: rest) acc avail =
          (none, releaseList acc.reverse updated) := by
        simp only [pinSetNewAux, hspn]
      rw [hstep, hupd]
      constructor
      · intro _
        rfl
      · intro hne
        exact absurd rfl hne
    | some q =>
      have hcond : ¬ (avail.getD (extract_port_number p) 0) &&&
          (1 <<< extract_pin_number p) = 0 := by
        intro hc
        rw [if_pos hc] at hfst
        exact Option.noConfusion hfst
      rw [if_neg hcond] at hfst
      have hq : q = p := Option.some.inj hfst
      subst hq
      have hbound' : ∀ w ∈ updated, w < 2 ^ 16 := by
        have h := specPinNew_preserves_bounds q avail hb
        rw [hspn] at h
        exact h
      have hstep : pinSetNewAux (q :: rest) acc avail =
          pinSetNewAux rest (q :: acc) updated := by
        simp only [pinSetNewAux, hspn]
      rw [hstep]
      obtain ⟨ihn, ihs⟩ := ih (q :: acc) updated hbound'
      constructor
      · intro hnone
        rw [ihn hnone, List.reverse_cons, releaseList_append_singleton,
          ← releaseList_specPinDrop]
        have hcancel : specPinDrop q updated = avail := by
          have h := specPinDrop_specPinNew q avail hb hcond
          rw [hspn] at h
          exact h
        rw [hcancel]
      · intro hne
        rw [ihs hne]
        simp

/-- Theorem C5.  `PinSet::new` allocates the requested pins in array
order and is all-or-nothing: if any allocation fails, every
already-acquired pin is released before `none` is returned, so the
availability table afterwards equals the table before the request — every
requested pin that was available is observably available again; if every
allocation succeeds, the complete set of requested pins is returned in
order. -/
theorem pin_set_new_all_or_nothing (pins : List Nat) (avail : List Nat)
    (hb : ∀ w ∈ avail, w < 2 ^ 16) :
    ((PinSet.new pins avail).1 = none → (PinSet.new pins avail).2 = avail) ∧
    ((PinSet.new pins avail).1 ≠ none → (PinSet.new pins avail).1 = some pins) := by
  have h := pinSetNewAux_spec pins [] avail hb
  simpa [PinSet.new, releaseList] using h

/-- Witness for C5: on the `vqfn` package, requesting `[PA_0, PA_12]`
first acquires PA_0, then fails on PA_12 (not bonded out, bit clear); the
rollback releases PA_0 and the table is exactly as before the request. -/
theorem pin_set_new_all_or_nothing_witness :
    ((PinSet.new [pin_name 0 0, pin_name 0 12] PORT_PINS_AVAILABLE_vqfn).1 = none →
      (PinSet.new [pin_name 0 0, pin_name 0 12] PORT_PINS_AVAILABLE_vqfn).2 =
        PORT_PINS_AVAILABLE_vqfn) ∧
    ((PinSet.new [pin_name 0 0, pin_name 0 12] PORT_PINS_AVAILABLE_vqfn).1 ≠ none →
      (PinSet.new [pin_name 0 0, pin_name 0 12] PORT_PINS_AVAILABLE_vqfn).1 =
        some [pin_name 0 0, pin_name 0 12]) :=
  pin_set_new_all_or_nothing [pin_name 0 0, pin_name 0 12] PORT_PINS_AVAILABLE_vqfn
    (by decide)
